import Mathlib

/-!
Verification of the request-governance layer of a Next.js question-answering
starter: fixed-window server rate limiter, sliding-window client rate limiter,
TTL cache, retry/backoff wrapper, cache-key generation and the question
endpoint handler, shallowly embedded from the TypeScript sources.

Times are modelled as natural numbers (milliseconds since epoch).  The
configuration constants `MAX_REQUESTS` and `STORAGE_WINDOW_MS` are imported by
the source from a configuration module; they appear here as parameters
`M` (quota) and `W` (window length).
-/

/-- A rate limit entry, as stored in the server limiter map:
`{ count: number; resetTime: number }`. -/
structure RateLimitEntry where
  count : Nat
  resetTime : Nat
deriving DecidableEq, Repr

/-- The server limiter store: `Map<string, RateLimitEntry>` keyed by IP. -/
abbrev RLStore : Type := String → Option RateLimitEntry

/-- The empty store (no entry for any key). -/
def RLStore.empty : RLStore := fun _ => none

namespace ServerRateLimiter

/-- Embeds `ServerRateLimiter.checkLimit(ip)`.  `now` is `Date.now()` at call
time; the result pairs the returned boolean with the store after the call.
If no entry exists or `now > entry.resetTime`, a fresh entry
`{count: 1, resetTime: now + W}` is installed and the call is allowed;
otherwise the call is allowed (incrementing the count) exactly when
`entry.count < M`. -/
def checkLimit (M W now : Nat) (s : RLStore) (ip : String) : Bool × RLStore :=
  match s ip with
  | none => (true, fun k => if k = ip then some ⟨1, now + W⟩ else s k)
  | some entry =>
    if entry.resetTime < now then
      (true, fun k => if k = ip then some ⟨1, now + W⟩ else s k)
    else if M ≤ entry.count then
      (false, s)
    else
      (true, fun k => if k = ip then some ⟨entry.count + 1, entry.resetTime⟩ else s k)

/-- Embeds `ServerRateLimiter.getRemaining(ip)`: `MAX_REQUESTS` if no entry or
`Date.now() > entry.resetTime`, else `Math.max(0, MAX_REQUESTS - entry.count)`. -/
def getRemaining (M now : Nat) (s : RLStore) (ip : String) : Int :=
  match s ip with
  | none => (M : Int)
  | some entry =>
    if entry.resetTime < now then (M : Int)
    else max 0 ((M : Int) - (entry.count : Int))

/-- Runs a sequence of `checkLimit` calls for one key, at the given call
times, returning the list of allow/deny answers and the final store. -/
def runChecks (M W : Nat) (ip : String) : List Nat → RLStore → List Bool × RLStore
  | [], s => ([], s)
  | t :: ts, s =>
    let r := checkLimit M W t s ip
    let rest := runChecks M W ip ts r.2
    (r.1 :: rest.1, rest.2)

/-- Records `getRemaining` (evaluated at each call time) after each
`checkLimit` call of a sequence. -/
def checkRemSeq (M W : Nat) (ip : String) : List Nat → RLStore → List Int
  | [], _ => []
  | t :: ts, s =>
    let s' := (checkLimit M W t s ip).2
    getRemaining M t s' ip :: checkRemSeq M W ip ts s'

end ServerRateLimiter

namespace ClientRateLimiter

/-- Embeds `ClientRateLimiter.checkLimit()`.  The state is the array of
request timestamps persisted in `localStorage`; `now` is `Date.now()`.
Timestamps outside the window (`now - timestamp < W` fails) are pruned, the
call is denied if at least `M` remain (leaving storage untouched), otherwise
the current time is appended and persisted. -/
def checkLimit (M W now : Nat) (requests : List Nat) : Bool × List Nat :=
  let validRequests := requests.filter (fun timestamp => now - timestamp < W)
  if M ≤ validRequests.length then
    (false, requests)
  else
    (true, validRequests ++ [now])

/-- Runs a sequence of client `checkLimit` calls at the given call times. -/
def runChecks (M W : Nat) : List Nat → List Nat → List Bool × List Nat
  | [], s => ([], s)
  | t :: ts, s =>
    let r := checkLimit M W t s
    let rest := runChecks M W ts r.2
    (r.1 :: rest.1, rest.2)

end ClientRateLimiter

namespace ServerRateLimiter

theorem checkLimit_deny (M W now : Nat) (s : RLStore) (ip : String)
    (c r : Nat) (hs : s ip = some ⟨c, r⟩) (hlive : now ≤ r) (hfull : M ≤ c) :
    checkLimit M W now s ip = (false, s) := by
  simp [checkLimit, hs, Nat.not_lt.mpr hlive, hfull]

theorem checkLimit_allow (M W now : Nat) (s : RLStore) (ip : String)
    (c r : Nat) (hs : s ip = some ⟨c, r⟩) (hlive : now ≤ r) (hlt : c < M) :
    checkLimit M W now s ip =
      (true, fun k => if k = ip then some ⟨c + 1, r⟩ else s k) := by
  simp [checkLimit, hs, Nat.not_lt.mpr hlive, Nat.not_le.mpr hlt]

theorem checkLimit_fresh (M W now : Nat) (s : RLStore) (ip : String)
    (hs : s ip = none) :
    checkLimit M W now s ip =
      (true, fun k => if k = ip then some ⟨1, now + W⟩ else s k) := by
  simp [checkLimit, hs]

theorem checkLimit_expired (M W now : Nat) (s : RLStore) (ip : String)
    (c r : Nat) (hs : s ip = some ⟨c, r⟩) (hexp : r < now) :
    checkLimit M W now s ip =
      (true, fun k => if k = ip then some ⟨1, now + W⟩ else s k) := by
  simp [checkLimit, hs, hexp]

/-- In-window behaviour of a run: starting from an entry `⟨c, r⟩` with every
call time at most `r`, the answers are `min len (M - c)` allows followed by
denies, and the final count is `c + min len (M - c)` with `resetTime`
unchanged. -/
theorem runChecks_formula (M W : Nat) (ip : String) :
    ∀ (ts : List Nat) (s : RLStore) (c r : Nat),
      s ip = some ⟨c, r⟩ → (∀ t ∈ ts, t ≤ r) →
      (runChecks M W ip ts s).1 =
        List.replicate (min ts.length (M - c)) true ++
          List.replicate (ts.length - (M - c)) false ∧
      (runChecks M W ip ts s).2 ip = some ⟨c + min ts.length (M - c), r⟩ := by
  intro ts
  induction ts with
  | nil => intro s c r hs _; simpa [runChecks] using hs
  | cons t ts ih =>
    intro s c r hs hw
    have ht : t ≤ r := hw t (by simp)
    have hw' : ∀ x ∈ ts, x ≤ r := fun x hx => hw x (by simp [hx])
    by_cases hfull : M ≤ c
    · have hstep := checkLimit_deny M W t s ip c r hs ht hfull
      have hMc : M - c = 0 := Nat.sub_eq_zero_of_le hfull
      have := ih s c r hs hw'
      simp only [runChecks, hstep, hMc] at this ⊢
      simp only [Nat.min_zero, List.replicate_zero, List.nil_append, Nat.sub_zero,
        Nat.add_zero] at this ⊢
      exact ⟨by simp [List.replicate_succ, this.1], this.2⟩
    · have hlt : c < M := Nat.lt_of_not_le hfull
      have hstep := checkLimit_allow M W t s ip c r hs ht hlt
      have hs' : (fun k => if k = ip then some (RateLimitEntry.mk (c + 1) r) else s k) ip
          = some ⟨c + 1, r⟩ := by simp
      have := ih (fun k => if k = ip then some ⟨c + 1, r⟩ else s k) (c + 1) r hs' hw'
      simp only [runChecks, hstep]
      constructor
      · have hmin : min (ts.length + 1) (M - c) = min ts.length (M - c - 1) + 1 := by omega
        have hsub : ts.length + 1 - (M - c) = ts.length - (M - c - 1) := by omega
        simp only [List.length_cons, hmin, hsub, List.replicate_succ, List.cons_append]
        exact congrArg _ (by simpa [Nat.sub_sub] using this.1)
      · have : (runChecks M W ip ts fun k =>
            if k = ip then some (RateLimitEntry.mk (c + 1) r) else s k).2 ip
            = some ⟨c + 1 + min ts.length (M - (c + 1)), r⟩ := this.2
        simp only [List.length_cons]
        rw [this]
        have : c + 1 + min ts.length (M - (c + 1)) = c + min (ts.length + 1) (M - c) := by omega
        rw [this]

theorem runChecks_append (M W : Nat) (ip : String) (l1 l2 : List Nat) (s : RLStore) :
    runChecks M W ip (l1 ++ l2) s =
      ((runChecks M W ip l1 s).1 ++ (runChecks M W ip l2 (runChecks M W ip l1 s).2).1,
        (runChecks M W ip l2 (runChecks M W ip l1 s).2).2) := by
  induction l1 generalizing s with
  | nil => simp [runChecks]
  | cons t l1 ih => simp [runChecks, ih]

end ServerRateLimiter

/-- Claim C1: for every identity key, starting from no entry, issuing exactly
`MAX_REQUESTS` checkLimit calls within one window returns allow each time and
the `(MAX_REQUESTS+1)`th call within the same window returns deny; the denied
call leaves the stored state (count and resetTime) unchanged. -/
theorem C1_fixed_window_quota (M W : Nat) (ip : String) (t0 tlast : Nat)
    (ts : List Nat) (hM : 1 ≤ M) (hlen : ts.length = M - 1)
    (hwin : ∀ t ∈ ts ++ [tlast], t ≤ t0 + W) :
    (ServerRateLimiter.runChecks M W ip (t0 :: (ts ++ [tlast])) RLStore.empty).1 =
      List.replicate M true ++ [false] ∧
    (ServerRateLimiter.runChecks M W ip (t0 :: (ts ++ [tlast])) RLStore.empty).2 =
      (ServerRateLimiter.runChecks M W ip (t0 :: ts) RLStore.empty).2 ∧
    (ServerRateLimiter.runChecks M W ip (t0 :: (ts ++ [tlast])) RLStore.empty).2 ip =
      some ⟨M, t0 + W⟩ := by
  have hfresh := ServerRateLimiter.checkLimit_fresh M W t0 RLStore.empty ip rfl
  set s1 : RLStore := fun k => if k = ip then some ⟨1, t0 + W⟩ else RLStore.empty k with hs1
  have hs1ip : s1 ip = some ⟨1, t0 + W⟩ := by simp [hs1]
  have hwts : ∀ t ∈ ts, t ≤ t0 + W := fun t ht => hwin t (by simp [ht])
  have hwlast : tlast ≤ t0 + W := hwin tlast (by simp)
  have hform := ServerRateLimiter.runChecks_formula M W ip ts s1 1 (t0 + W) hs1ip hwts
  have hmin : min ts.length (M - 1) = M - 1 := by omega
  have hsub : ts.length - (M - 1) = 0 := by omega
  have hcount : 1 + min ts.length (M - 1) = M := by omega
  have hts1 : (ServerRateLimiter.runChecks M W ip ts s1).1 = List.replicate (M - 1) true := by
    rw [hform.1, hmin, hsub]; simp
  have hts2 : (ServerRateLimiter.runChecks M W ip ts s1).2 ip = some ⟨M, t0 + W⟩ := by
    rw [hform.2, hcount]
  have hdeny := ServerRateLimiter.checkLimit_deny M W tlast
    (ServerRateLimiter.runChecks M W ip ts s1).2 ip M (t0 + W) hts2 hwlast (Nat.le_refl M)
  have happ := ServerRateLimiter.runChecks_append M W ip ts [tlast] s1
  constructor
  · show (ServerRateLimiter.runChecks M W ip (t0 :: (ts ++ [tlast])) RLStore.empty).1 = _
    simp only [ServerRateLimiter.runChecks, hfresh]
    rw [happ]
    simp only [ServerRateLimiter.runChecks, hdeny, hts1]
    have : List.replicate M true = true :: List.replicate (M - 1) true := by
      have : M = (M - 1) + 1 := by omega
      rw [this]; simp [List.replicate_succ]
    simp [this]
  constructor
  · simp only [ServerRateLimiter.runChecks, hfresh]
    rw [happ]
    simp only [ServerRateLimiter.runChecks, hdeny]
  · simp only [ServerRateLimiter.runChecks, hfresh]
    rw [happ]
    simp only [ServerRateLimiter.runChecks, hdeny]
    exact hts2

/-- Witness for C1 at `M = 2`, `W = 10`, call times `0, 3, 5`: the answers
are allow, allow, deny. -/
theorem C1_fixed_window_quota_witness :
    (ServerRateLimiter.runChecks 2 10 "k" [0, 3, 5] RLStore.empty).1 =
      [true, true, false] := by
  have h := C1_fixed_window_quota 2 10 "k" 0 5 [3] (by decide) (by decide)
    (by intro t ht; fin_cases ht <;> decide)
  simpa using h.1

namespace ClientRateLimiter

/-- In-window behaviour of a client run: if every stored timestamp and every
call time lies within `W` of a common origin `t0`, no pruning occurs, so the
answers are `min len (M - stored)` allows followed by denies. -/
theorem clientRun_formula (M W t0 : Nat) (hW : 0 < W) :
    ∀ (ts cur : List Nat),
      (∀ t ∈ ts, t0 ≤ t ∧ t - t0 < W) → (∀ x ∈ cur, t0 ≤ x ∧ x - t0 < W) →
      (runChecks M W ts cur).1 =
        List.replicate (min ts.length (M - cur.length)) true ++
          List.replicate (ts.length - (M - cur.length)) false := by
  intro ts
  induction ts with
  | nil => intro cur _ _; simp [runChecks]
  | cons t ts ih =>
    intro cur hts hcur
    have ht := hts t (by simp)
    have hts' : ∀ x ∈ ts, t0 ≤ x ∧ x - t0 < W := fun x hx => hts x (by simp [hx])
    have hfilter : cur.filter (fun timestamp => t - timestamp < W) = cur := by
      rw [List.filter_eq_self]
      intro x hx
      have hxr := hcur x hx
      by_cases hxt : x ≤ t
      · have : t - x ≤ t - t0 := Nat.sub_le_sub_left hxr.1 t
        exact decide_eq_true (by omega)
      · exact decide_eq_true (by omega)
    by_cases hfull : M ≤ cur.length
    · have hstep : checkLimit M W t cur = (false, cur) := by
        simp [checkLimit, hfilter, hfull]
      have hMc : M - cur.length = 0 := Nat.sub_eq_zero_of_le hfull
      have := ih cur hts' hcur
      simp only [runChecks, hstep, hMc, Nat.min_zero, List.replicate_zero,
        List.nil_append, Nat.sub_zero] at this ⊢
      simp [List.replicate_succ, this]
    · have hlt : cur.length < M := Nat.lt_of_not_le hfull
      have hstep : checkLimit M W t cur = (true, cur ++ [t]) := by
        simp [checkLimit, hfilter, Nat.not_le.mpr hlt]
      have hcur' : ∀ x ∈ cur ++ [t], t0 ≤ x ∧ x - t0 < W := by
        intro x hx
        rcases List.mem_append.mp hx with hx | hx
        · exact hcur x hx
        · simp at hx; subst hx; exact ht
      have := ih (cur ++ [t]) hts' hcur'
      simp only [runChecks, hstep]
      have hmin : min (ts.length + 1) (M - cur.length) =
          min ts.length (M - (cur.length + 1)) + 1 := by omega
      have hsub : ts.length + 1 - (M - cur.length) =
          ts.length - (M - (cur.length + 1)) := by omega
      simp only [List.length_cons, hmin, hsub, List.replicate_succ, List.cons_append]
      refine congrArg _ ?_
      simpa [List.length_append] using this

end ClientRateLimiter

/-- Counterexample to claim C2: with `MAX_REQUESTS = 2`, `STORAGE_WINDOW_MS
= 10` and call times `0, 9, 10`, the server (fixed-window) limiter answers
allow, allow, deny while the client (sliding-window) limiter answers allow,
allow, allow: the two variants do not enforce identical policy. -/
theorem C2_counterexample :
    (ServerRateLimiter.runChecks 2 10 "k" [0, 9, 10] RLStore.empty).1 ≠
      (ClientRateLimiter.runChecks 2 10 [0, 9, 10] []).1 := by
  decide

/-- Claim C2 (amended): the two limiters agree on every call sequence that
stays within a single window, i.e. whose call times all lie within
`STORAGE_WINDOW_MS` of the first call (strictly, and at or after it); they
diverge once a window boundary is crossed. -/
theorem C2_amended_single_window_agreement (M W : Nat) (ip : String)
    (t0 : Nat) (ts : List Nat) (hM : 1 ≤ M) (hW : 0 < W)
    (hwin : ∀ t ∈ ts, t0 ≤ t ∧ t - t0 < W) :
    (ServerRateLimiter.runChecks M W ip (t0 :: ts) RLStore.empty).1 =
      (ClientRateLimiter.runChecks M W (t0 :: ts) []).1 := by
  have hfresh := ServerRateLimiter.checkLimit_fresh M W t0 RLStore.empty ip rfl
  have hs1ip : (fun k => if k = ip then some (RateLimitEntry.mk 1 (t0 + W))
      else RLStore.empty k) ip = some ⟨1, t0 + W⟩ := by simp
  have hwts : ∀ t ∈ ts, t ≤ t0 + W := by
    intro t ht; have := hwin t ht; omega
  have hserver := ServerRateLimiter.runChecks_formula M W ip ts
    (fun k => if k = ip then some ⟨1, t0 + W⟩ else RLStore.empty k) 1 (t0 + W) hs1ip hwts
  have hcstep : ClientRateLimiter.checkLimit M W t0 [] = (true, [t0]) := by
    simp [ClientRateLimiter.checkLimit, Nat.not_le.mpr (by omega : (0 : Nat) < M)]
  have hclient := ClientRateLimiter.clientRun_formula M W t0 hW ts [t0] hwin
    (by intro x hx; simp at hx; subst hx; omega)
  simp only [ServerRateLimiter.runChecks, ClientRateLimiter.runChecks, hfresh, hcstep]
  rw [hserver.1]
  simp only [List.length_singleton] at hclient
  rw [hclient]

/-- Witness for the amended C2 at `M = 2`, `W = 10`, call times `0, 3, 5`. -/
theorem C2_amended_witness :
    (ServerRateLimiter.runChecks 2 10 "k" [0, 3, 5] RLStore.empty).1 =
      (ClientRateLimiter.runChecks 2 10 [0, 3, 5] []).1 :=
  C2_amended_single_window_agreement 2 10 "k" 0 [3, 5] (by decide) (by decide)
    (by intro t ht; fin_cases ht <;> exact ⟨by decide, by decide⟩)

/-- Counterexample to claim C6: at `now = resetTime` (so `now ≥ resetTime`
holds) with a full entry (`count = 2 = MAX_REQUESTS`, `resetTime = 5`,
`MAX_REQUESTS = 2`, window 10), the code does not treat the entry as expired:
`checkLimit` denies instead of installing a fresh allowed entry, and
`getRemaining` returns `0`, not the full quota. -/
theorem C6_counterexample :
    (5 : Nat) ≥ 5 ∧
    ¬ ((ServerRateLimiter.checkLimit 2 10 5
          (fun k => if k = "k" then some ⟨2, 5⟩ else none) "k").1 = true ∧
        ServerRateLimiter.getRemaining 2 5
          (fun k => if k = "k" then some ⟨2, 5⟩ else none) "k" = 2) := by
  constructor
  · decide
  · intro h
    exact absurd h.1 (by decide)

/-- Claim C6 (amended): a rate-limit entry is treated as expired exactly when
`now > resetTime` (strictly): a `checkLimit` call at such a time replaces the
entry with a fresh one of count 1 (window `now + W`) and allows the request,
and `getRemaining` at such a time returns the full quota `MAX_REQUESTS`. -/
theorem C6_amended_expiry_strict (M W now : Nat) (s : RLStore) (ip : String)
    (c r : Nat) (hs : s ip = some ⟨c, r⟩) (hexp : r < now) :
    ServerRateLimiter.checkLimit M W now s ip =
      (true, fun k => if k = ip then some ⟨1, now + W⟩ else s k) ∧
    ServerRateLimiter.getRemaining M now s ip = M := by
  refine ⟨ServerRateLimiter.checkLimit_expired M W now s ip c r hs hexp, ?_⟩
  simp [ServerRateLimiter.getRemaining, hs, hexp]

/-- Witness for the amended C6: entry `⟨2, 5⟩`, `now = 6 > 5`, quota 2,
window 10: the call is allowed with a fresh count of 1 and the remaining
quota reads full. -/
theorem C6_amended_witness :
    (ServerRateLimiter.checkLimit 2 10 6
        (fun k => if k = "k" then some ⟨2, 5⟩ else none) "k").1 = true ∧
    ServerRateLimiter.getRemaining 2 6
      (fun k => if k = "k" then some ⟨2, 5⟩ else none) "k" = 2 := by
  have h := C6_amended_expiry_strict 2 10 6
    (fun k => if k = "k" then some ⟨2, 5⟩ else none) "k" 2 5 (by simp) (by decide)
  exact ⟨by rw [h.1], h.2⟩

namespace ServerRateLimiter

/-- Along a sequence of in-window `checkLimit` calls from an entry `⟨c, r⟩`,
every recorded remaining-quota value is at most `max 0 (M - c)` and the
recorded values are non-increasing. -/
theorem checkRemSeq_antitone (M W : Nat) (ip : String) :
    ∀ (ts : List Nat) (s : RLStore) (c r : Nat),
      s ip = some ⟨c, r⟩ → (∀ t ∈ ts, t ≤ r) →
      (∀ x ∈ checkRemSeq M W ip ts s, x ≤ max 0 ((M : Int) - c)) ∧
      List.Chain' (fun a b => b ≤ a) (checkRemSeq M W ip ts s) := by
  intro ts
  induction ts with
  | nil => intro s c r _ _; simp [checkRemSeq]
  | cons t ts ih =>
    intro s c r hs hw
    have ht : t ≤ r := hw t (by simp)
    have hw' : ∀ x ∈ ts, x ≤ r := fun x hx => hw x (by simp [hx])
    by_cases hfull : M ≤ c
    · have hstep := checkLimit_deny M W t s ip c r hs ht hfull
      have hrem : getRemaining M t s ip = max 0 ((M : Int) - c) := by
        simp [getRemaining, hs, Nat.not_lt.mpr ht]
      have hih := ih s c r hs hw'
      simp only [checkRemSeq, hstep]
      simp only [hrem]
      refine ⟨?_, ?_⟩
      · intro x hx
        rcases List.mem_cons.mp hx with hx | hx
        · exact le_of_eq hx
        · exact (hih.1 x hx)
      · refine hih.2.cons' ?_
        intro y hy
        exact hih.1 y (List.mem_of_mem_head? hy)
    · have hlt : c < M := Nat.lt_of_not_le hfull
      have hstep := checkLimit_allow M W t s ip c r hs ht hlt
      have hs' : (fun k => if k = ip then some (RateLimitEntry.mk (c + 1) r) else s k) ip
          = some ⟨c + 1, r⟩ := by simp
      have hrem : getRemaining M t
          (fun k => if k = ip then some (RateLimitEntry.mk (c + 1) r) else s k) ip
          = max 0 ((M : Int) - (c + 1)) := by
        simp [getRemaining, Nat.not_lt.mpr ht]
      have hih := ih (fun k => if k = ip then some ⟨c + 1, r⟩ else s k) (c + 1) r hs' hw'
      have hmono : max 0 ((M : Int) - (c + 1)) ≤ max 0 ((M : Int) - c) := by
        have : ((M : Int) - (c + 1)) ≤ ((M : Int) - c) := by omega
        exact max_le_max (le_refl 0) this
      simp only [checkRemSeq, hstep]
      simp only [hrem]
      refine ⟨?_, ?_⟩
      · intro x hx
        rcases List.mem_cons.mp hx with hx | hx
        · exact hx ▸ hmono
        · exact le_trans (hih.1 x hx) hmono
      · refine hih.2.cons' ?_
        intro y hy
        exact hih.1 y (List.mem_of_mem_head? hy)

end ServerRateLimiter

/-- Claim C7: `getRemaining` returns `max(0, MAX_REQUESTS − count)` for a
live (unexpired) entry, the full quota when no entry exists or the window has
expired; within a single window the remaining quota recorded across a
sequence of `checkLimit` calls is monotonically non-increasing; and it resets
to the full quota once the window expires. -/
theorem C7_getRemaining_spec (M W now : Nat) (s : RLStore) (ip : String)
    (c r : Nat) (ts : List Nat) :
    (s ip = some ⟨c, r⟩ → now ≤ r →
      ServerRateLimiter.getRemaining M now s ip = max 0 ((M : Int) - c)) ∧
    (s ip = none → ServerRateLimiter.getRemaining M now s ip = M) ∧
    (s ip = some ⟨c, r⟩ → r < now →
      ServerRateLimiter.getRemaining M now s ip = M) ∧
    (s ip = some ⟨c, r⟩ → (∀ t ∈ ts, t ≤ r) →
      List.Chain' (fun a b => b ≤ a) (ServerRateLimiter.checkRemSeq M W ip ts s)) := by
  refine ⟨?_, ?_, ?_, ?_⟩
  · intro hs hlive
    simp [ServerRateLimiter.getRemaining, hs, Nat.not_lt.mpr hlive]
  · intro hs
    simp [ServerRateLimiter.getRemaining, hs]
  · intro hs hexp
    simp [ServerRateLimiter.getRemaining, hs, hexp]
  · intro hs hw
    exact (ServerRateLimiter.checkRemSeq_antitone M W ip ts s c r hs hw).2

/-- Witness for C7: quota 2, window 10, live entry `⟨1, 10⟩` at time 4;
remaining quota is 1, an absent key reads 2, an expired read (time 11) reads
2, and the remaining-quota trace over calls at times 5, 6, 7 is
non-increasing. -/
theorem C7_getRemaining_witness :
    ServerRateLimiter.getRemaining 2 4
      (fun k => if k = "k" then some ⟨1, 10⟩ else none) "k" = 1 ∧
    ServerRateLimiter.getRemaining 2 4
      (fun k => if k = "k" then some ⟨1, 10⟩ else none) "other" = 2 ∧
    ServerRateLimiter.getRemaining 2 11
      (fun k => if k = "k" then some ⟨1, 10⟩ else none) "k" = 2 ∧
    List.Chain' (fun a b => b ≤ a)
      (ServerRateLimiter.checkRemSeq 2 10 "k" [5, 6, 7]
        (fun k => if k = "k" then some ⟨1, 10⟩ else none)) := by
  have h1 := C7_getRemaining_spec 2 10 4
    (fun k => if k = "k" then some ⟨1, 10⟩ else none) "k" 1 10 [5, 6, 7]
  have h2 := C7_getRemaining_spec 2 10 4
    (fun k => if k = "k" then some ⟨1, 10⟩ else none) "other" 1 10 ([] : List Nat)
  have h3 := C7_getRemaining_spec 2 10 11
    (fun k => if k = "k" then some ⟨1, 10⟩ else none) "k" 1 10 ([] : List Nat)
  refine ⟨?_, ?_, ?_, ?_⟩
  · have := h1.1 (by simp) (by decide)
    rw [this]; decide
  · exact h2.2.1 (by simp)
  · exact h3.2.2.1 (by simp) (by decide)
  · exact h1.2.2.2 (by simp) (by intro t ht; fin_cases ht <;> decide)

/-- A cache entry as stored by `ApiCache`: `{ data; timestamp; ttl }`. -/
structure CacheItem (α : Type) where
  data : α
  timestamp : Nat
  ttl : Nat

/-- The cache store: `Map<string, { data; timestamp; ttl }>`. -/
abbrev Cache (α : Type) : Type := String → Option (CacheItem α)

/-- The empty cache. -/
def Cache.empty {α : Type} : Cache α := fun _ => none

namespace ApiCache

/-- Embeds `ApiCache.set(key, data, ttl)`: stores the value with the current
time as timestamp, overwriting any existing entry. -/
def set {α : Type} (now : Nat) (c : Cache α) (key : String) (data : α) (ttl : Nat) :
    Cache α :=
  fun k => if k = key then some ⟨data, now, ttl⟩ else c k

/-- Embeds `ApiCache.get(key)`: a missing key reports absent; an entry whose
age `now - timestamp` strictly exceeds its `ttl` is deleted and reported
absent; otherwise the stored data is returned.  The result pairs the returned
value with the cache after the call. -/
def get {α : Type} (now : Nat) (c : Cache α) (key : String) : Option α × Cache α :=
  match c key with
  | none => (none, c)
  | some item =>
    if item.ttl < now - item.timestamp then
      (none, fun k => if k = key then none else c k)
    else
      (some item.data, c)

/-- Embeds `ApiCache.delete(key)`: removes the entry, reporting whether one
was present. -/
def deleteKey {α : Type} (c : Cache α) (key : String) : Bool × Cache α :=
  ((c key).isSome, fun k => if k = key then none else c k)

/-- Embeds `ApiCache.clear()`. -/
def clear {α : Type} (_ : Cache α) : Cache α := fun _ => none

end ApiCache

/-- Claim C3: after `set(k, v, ttl)` an immediate `get(k)` returns `v`; a
`get(k)` performed when the entry's age exceeds its stored `ttl` deletes the
entry and reports absent, and every subsequent `get(k)` with no intervening
`set` also reports absent (the post-deletion cache is returned unchanged);
`get` on a key with no entry reports absent. -/
theorem C3_cache_ttl {α : Type} (now : Nat) (c : Cache α) (key : String)
    (v : α) (ttl : Nat) :
    (ApiCache.get now (ApiCache.set now c key v ttl) key).1 = some v ∧
    (∀ item, c key = some item → item.ttl < now - item.timestamp →
      ApiCache.get now c key = (none, fun k => if k = key then none else c k) ∧
      ∀ now2, ApiCache.get now2 (ApiCache.get now c key).2 key =
        (none, (ApiCache.get now c key).2)) ∧
    (c key = none → (ApiCache.get now c key).1 = none) := by
  refine ⟨?_, ?_, ?_⟩
  · simp [ApiCache.get, ApiCache.set]
  · intro item hitem hexp
    have hget : ApiCache.get now c key = (none, fun k => if k = key then none else c k) := by
      simp [ApiCache.get, hitem, hexp]
    refine ⟨hget, ?_⟩
    intro now2
    rw [hget]
    simp [ApiCache.get]
  · intro hnone
    simp [ApiCache.get, hnone]

/-- Witness for C3 over `α = Nat`: setting key `"k"` to `7` with `ttl = 5` at
time 0 and reading immediately yields `7`; reading an entry of age 6 with
`ttl = 5` yields absent, as does a further read at time 9; a missing key
yields absent. -/
theorem C3_cache_ttl_witness :
    (ApiCache.get 0 (ApiCache.set 0 (Cache.empty (α := Nat)) "k" 7 5) "k").1 = some 7 ∧
    (ApiCache.get 6 (fun k => if k = "k" then some ⟨7, 0, 5⟩ else none) "k").1 =
      (none : Option Nat) ∧
    (ApiCache.get 9
        (ApiCache.get 6 (fun k => if k = "k" then some ⟨7, 0, 5⟩ else none) "k").2 "k").1 =
      (none : Option Nat) ∧
    (ApiCache.get 3 (Cache.empty (α := Nat)) "missing").1 = none := by
  have h1 := C3_cache_ttl 0 (Cache.empty (α := Nat)) "k" 7 5
  have h2 := C3_cache_ttl 6 (fun k => if k = "k" then some ⟨7, 0, 5⟩ else none) "k" 7 5
  have h3 := C3_cache_ttl 3 (Cache.empty (α := Nat)) "missing" 7 5
  have hdel := h2.2.1 ⟨7, 0, 5⟩ (by simp) (by decide)
  refine ⟨h1.1, ?_, ?_, h3.2.2 rfl⟩
  · rw [hdel.1]
  · have := hdel.2 9
    rw [this]

/-- Outcome of a `retryRequest` call: a returned value, a propagated error, or
the runtime failure of the trailing `throw new Error(lastError!.message)`
dereferencing the never-assigned `lastError` (reachable only when the retry
loop body never ran). -/
inductive RetryOutcome (E A : Type) where
  | ok (value : A)
  | err (e : E)
  | undefinedDeref
deriving DecidableEq

/-- The retry loop of `retryRequest`, embedded with explicit fuel: `attempt`
is the loop counter (starting at 1) and `fuel` the number of remaining
iterations (`maxRetries + 1 - attempt` at the top-level call).  The operation
is modelled as `f : Nat → Except E A` giving the outcome of each attempt.
`none` means the loop exited without returning or throwing; `some (r, ws)`
pairs the outcome with the list of backoff waits `delay * 2 ^ (attempt - 1)`
performed before each retry (no wait follows the final failed attempt, whose
error is thrown directly). -/
def retryAux {E A : Type} (f : Nat → Except E A) (maxRetries delay : Nat) :
    Nat → Nat → Option (Except E A × List Nat)
  | _, 0 => none
  | attempt, fuel + 1 =>
    match f attempt with
    | .ok a => some (.ok a, [])
    | .error e =>
      if attempt = maxRetries then
        some (.error e, [])
      else
        match retryAux f maxRetries delay (attempt + 1) fuel with
        | some (r, ws) => some (r, delay * 2 ^ (attempt - 1) :: ws)
        | none => none

/-- Embeds `retryRequest(requestFn, maxRetries, delay)`.  When the loop exits
without returning (possible only for `maxRetries = 0`, the loop body never
running), the trailing `throw new Error(lastError!.message)` dereferences the
undefined `lastError`, modelled as `RetryOutcome.undefinedDeref`. -/
def retryRequest {E A : Type} (f : Nat → Except E A) (maxRetries delay : Nat) :
    RetryOutcome E A × List Nat :=
  match retryAux f maxRetries delay 1 maxRetries with
  | some (.ok a, ws) => (.ok a, ws)
  | some (.error e, ws) => (.err e, ws)
  | none => (.undefinedDeref, [])

theorem retryAux_ok {E A : Type} (f : Nat → Except E A) (maxRetries delay n : Nat)
    (v : A) :
    ∀ (fuel attempt : Nat), 1 ≤ attempt → attempt ≤ n → n ≤ maxRetries →
      fuel = maxRetries + 1 - attempt →
      (∀ i, attempt ≤ i → i < n → ∃ e, f i = .error e) →
      f n = .ok v →
      retryAux f maxRetries delay attempt fuel =
        some (.ok v, (List.range' attempt (n - attempt)).map
          (fun i => delay * 2 ^ (i - 1))) := by
  intro fuel
  induction fuel with
  | zero => intro attempt h1 h2 h3 hfuel _ _; omega
  | succ fuel ih =>
    intro attempt h1 h2 h3 hfuel hfail hok
    by_cases heq : attempt = n
    · subst heq
      simp [retryAux, hok]
    · have hlt : attempt < n := Nat.lt_of_le_of_ne h2 heq
      obtain ⟨e, hfe⟩ := hfail attempt (Nat.le_refl attempt) hlt
      have hne : attempt ≠ maxRetries := by omega
      have hih := ih (attempt + 1) (by omega) hlt h3 (by omega)
        (fun i hi hin => hfail i (by omega) hin) hok
      have hrange : n - attempt = (n - (attempt + 1)) + 1 := by omega
      simp only [retryAux, hfe, hne, if_false, hih]
      rw [hrange, List.range'_succ]
      simp
  
theorem retryAux_err {E A : Type} (f : Nat → Except E A) (maxRetries delay : Nat)
    (e : E) :
    ∀ (fuel attempt : Nat), 1 ≤ attempt → attempt ≤ maxRetries →
      fuel = maxRetries + 1 - attempt →
      (∀ i, attempt ≤ i → i < maxRetries → ∃ e', f i = .error e') →
      f maxRetries = .error e →
      retryAux f maxRetries delay attempt fuel =
        some (.error e, (List.range' attempt (maxRetries - attempt)).map
          (fun i => delay * 2 ^ (i - 1))) := by
  intro fuel
  induction fuel with
  | zero => intro attempt h1 h2 hfuel _ _; omega
  | succ fuel ih =>
    intro attempt h1 h2 hfuel hfail hlast
    by_cases heq : attempt = maxRetries
    · subst heq
      simp [retryAux, hlast]
    · have hlt : attempt < maxRetries := Nat.lt_of_le_of_ne h2 heq
      obtain ⟨e', hfe⟩ := hfail attempt (Nat.le_refl attempt) hlt
      have hih := ih (attempt + 1) (by omega) hlt (by omega)
        (fun i hi hin => hfail i (by omega) hin) hlast
      have hrange : maxRetries - attempt = (maxRetries - (attempt + 1)) + 1 := by omega
      simp only [retryAux, hfe, heq, if_false, hih]
      rw [hrange, List.range'_succ]
      simp

theorem range'_one_waits (delay m : Nat) :
    (List.range' 1 m).map (fun i => delay * 2 ^ (i - 1)) =
      (List.range m).map (fun j => delay * 2 ^ j) := by
  rw [List.range'_eq_map_range]
  rw [List.map_map]
  refine List.map_congr_left ?_
  intro j _
  simp [Nat.add_sub_cancel_left]

/-- Claim C4: if the operation fails on the first `n − 1` attempts and
succeeds on the `n`th with `maxRetries ≥ n`, `retryRequest` returns the
success value; if it fails on all `maxRetries` attempts, the final failure is
propagated (no fallback value); the waits performed before the retries follow
`delay, 2·delay, 4·delay, …` (the wait before retry `i+1` being
`delay * 2 ^ (i − 1)`), and no wait is performed after the final failed
attempt (the wait list has one entry fewer than the number of attempts). -/
theorem C4_retry_backoff {E A : Type} (f : Nat → Except E A)
    (maxRetries delay n : Nat) (v : A) (e : E) :
    (1 ≤ n → n ≤ maxRetries →
      (∀ i, 1 ≤ i → i < n → ∃ e', f i = .error e') → f n = .ok v →
      retryRequest f maxRetries delay =
        (.ok v, (List.range (n - 1)).map (fun j => delay * 2 ^ j))) ∧
    (1 ≤ maxRetries →
      (∀ i, 1 ≤ i → i < maxRetries → ∃ e', f i = .error e') →
      f maxRetries = .error e →
      retryRequest f maxRetries delay =
        (.err e, (List.range (maxRetries - 1)).map (fun j => delay * 2 ^ j))) := by
  constructor
  · intro hn hnm hfail hok
    have h := retryAux_ok f maxRetries delay n v maxRetries 1 (Nat.le_refl 1) hn hnm
      (by omega) (fun i hi hin => hfail i hi hin) hok
    rw [retryRequest, h, range'_one_waits]
  · intro hm hfail hlast
    have h := retryAux_err f maxRetries delay e maxRetries 1 (Nat.le_refl 1) hm
      (by omega) (fun i hi hin => hfail i hi hin) hlast
    rw [retryRequest, h, range'_one_waits]

/-- Witness for C4: an operation failing once then succeeding with value `42`
under `maxRetries = 3`, `delay = 100` returns `42` after a single wait of
`100`; an operation that always fails with `"boom"` under `maxRetries = 3`
propagates `"boom"` after waits `100, 200` (none after the final attempt). -/
theorem C4_retry_backoff_witness :
    retryRequest (fun i => if i = 1 then Except.error "boom" else Except.ok 42) 3 100 =
      (.ok 42, [100]) ∧
    retryRequest (fun _ => (Except.error "boom" : Except String Nat)) 3 100 =
      (.err "boom", [100, 200]) := by
  constructor
  · have h := (C4_retry_backoff
        (fun i => if i = 1 then Except.error "boom" else Except.ok (42 : Nat)) 3 100 2 42
        "boom").1 (by omega) (by omega)
      (by intro i h1 h2; exact ⟨"boom", by interval_cases i; simp⟩) (by simp)
    simpa using h
  · have h := (C4_retry_backoff (fun _ => (Except.error "boom" : Except String Nat))
        3 100 2 0 "boom").2 (by omega)
      (by intro i _ _; exact ⟨"boom", rfl⟩) rfl
    simpa using h

theorem retryAux_isSome {E A : Type} (f : Nat → Except E A) (maxRetries delay : Nat) :
    ∀ (fuel attempt : Nat), 1 ≤ attempt → attempt ≤ maxRetries →
      fuel = maxRetries + 1 - attempt →
      (retryAux f maxRetries delay attempt fuel).isSome := by
  intro fuel
  induction fuel with
  | zero => intro attempt h1 h2 hfuel; omega
  | succ fuel ih =>
    intro attempt h1 h2 hfuel
    cases hf : f attempt with
    | ok a => simp [retryAux, hf]
    | error e =>
      by_cases heq : attempt = maxRetries
      · subst heq
        simp [retryAux, hf]
      · have hih := ih (attempt + 1) (by omega) (by omega) (by omega)
        obtain ⟨p, hp⟩ := Option.isSome_iff_exists.mp hih
        cases p with
        | mk r ws => simp [retryAux, hf, heq, hp]

/-- Claim C10: with `maxRetries = 0` (the integer guard `attempt <= maxRetries`
failing immediately for any non-positive bound) the retry loop body never
executes, so the operation is never invoked — the result is the same for
every operation `f` — and the call ends in the trailing
`throw new Error(lastError!.message)`, a runtime dereference of the undefined
`lastError` rather than a propagated error; with `maxRetries ≥ 1` the loop
always returns or throws a real outcome, never that dereference. -/
theorem C10_zero_retries_undefined {E A : Type} (f : Nat → Except E A)
    (delay m : Nat) :
    retryRequest f 0 delay = (.undefinedDeref, []) ∧
    (1 ≤ m → (retryRequest f m delay).1 ≠ RetryOutcome.undefinedDeref) := by
  constructor
  · rfl
  · intro hm
    have hsome := retryAux_isSome f m delay m 1 (Nat.le_refl 1) hm (by omega)
    obtain ⟨p, hp⟩ := Option.isSome_iff_exists.mp hsome
    cases p with
    | mk r ws =>
      cases r with
      | ok a => simp [retryRequest, hp]
      | error e => simp [retryRequest, hp]

/-- Witness for C10 over `E = String`, `A = Nat`: with `maxRetries = 0` both
an always-succeeding and an always-failing operation end in the undefined
dereference (the operation result is irrelevant because it is never invoked),
while `maxRetries = 2` never produces that dereference. -/
theorem C10_zero_retries_witness :
    retryRequest (fun _ => (Except.ok 7 : Except String Nat)) 0 9 =
      (.undefinedDeref, []) ∧
    retryRequest (fun _ => (Except.error "x" : Except String Nat)) 0 9 =
      (.undefinedDeref, []) ∧
    (retryRequest (fun _ => (Except.ok 7 : Except String Nat)) 2 9).1 ≠
      RetryOutcome.undefinedDeref := by
  refine ⟨?_, ?_, ?_⟩
  · exact (C10_zero_retries_undefined (fun _ => (Except.ok 7 : Except String Nat)) 9 2).1
  · exact (C10_zero_retries_undefined
      (fun _ => (Except.error "x" : Except String Nat)) 9 2).1
  · exact (C10_zero_retries_undefined (fun _ => (Except.ok 7 : Except String Nat)) 9 2).2
      (by omega)

/-- A JSON parameter value, as passed in a request parameter object. -/
inductive JsonValue where
  | num (n : Int)
  | str (s : String)
deriving DecidableEq

/-- Serializes one JSON value the way `JSON.stringify` renders it (string
escaping is not needed for the inputs considered here). -/
def JsonValue.stringify : JsonValue → String
  | .num n => toString n
  | .str s => "\"" ++ s ++ "\""

/-- A parameter object: its fields in insertion order, as a JavaScript object
records them and as `JSON.stringify` serializes them. -/
abbrev ParamObject : Type := List (String × JsonValue)

/-- `JSON.stringify` on a parameter object: fields rendered in their stored
(insertion) order. -/
def jsonStringifyObject (params : ParamObject) : String :=
  "\x7b" ++
    String.intercalate ","
      (params.map (fun p => "\"" ++ p.1 ++ "\":" ++ p.2.stringify)) ++
  "\x7d"

/-- Embeds `generateCacheKey(endpoint, params)`: the endpoint, a colon, and
`JSON.stringify(params)` (the empty string when `params` is absent). -/
def generateCacheKey (endpoint : String) (params : Option ParamObject) : String :=
  let paramString := match params with
    | some p => jsonStringifyObject p
    | none => ""
  endpoint ++ ":" ++ paramString

/-- Field lookup in a parameter object (first occurrence wins, as property
access does on a JavaScript object literal). -/
def lookupField (key : String) : ParamObject → Option JsonValue
  | [] => none
  | (k, v) :: rest => if key = k then some v else lookupField key rest

/-- Two parameter objects are equal as key-value maps when every key looks up
to the same value in both. -/
def eqAsMaps (p q : ParamObject) : Prop :=
  ∀ k, lookupField k p = lookupField k q

/-- Counterexample to claim C5: the objects `{a: 1, b: 2}` and `{b: 2, a: 1}`
are equal as key-value maps, yet `generateCacheKey` sends them to different
keys, because `JSON.stringify` serializes fields in insertion order. -/
theorem C5_counterexample :
    eqAsMaps [("a", .num 1), ("b", .num 2)] [("b", .num 2), ("a", .num 1)] ∧
    generateCacheKey "e" (some [("a", .num 1), ("b", .num 2)]) ≠
      generateCacheKey "e" (some [("b", .num 2), ("a", .num 1)]) := by
  constructor
  · intro k
    by_cases h1 : k = "a"
    · subst h1; decide
    · by_cases h2 : k = "b"
      · subst h2; decide
      · simp [lookupField, h1, h2]
  · decide

/-- Claim C5 (amended): `generateCacheKey` collapses two logically identical
requests to the same key only when the parameter serializations coincide; map
equality alone suffices when each parameter object carries at most one field
(so order cannot differ), but already two fields supplied in different orders
produce different keys. -/
theorem C5_amended_cache_key (endpoint : String) (p q : ParamObject)
    (hp : p.length ≤ 1) (hq : q.length ≤ 1) (h : eqAsMaps p q) :
    generateCacheKey endpoint (some p) = generateCacheKey endpoint (some q) := by
  suffices hpq : p = q by rw [hpq]
  match p, q with
  | [], [] => rfl
  | [], (k, v) :: q' =>
    have := h k
    simp [lookupField] at this
  | (k, v) :: p', [] =>
    have := h k
    simp [lookupField] at this
  | [(k1, v1)], [(k2, v2)] =>
    have h1 := h k1
    simp [lookupField] at h1
    rw [h1.1, h1.2]
  | (k1, v1) :: a :: p', _ => simp at hp
  | _, (k2, v2) :: b :: q' => simp at hq

/-- Witness for the amended C5: singleton objects `{a: 1}` and `{a: 1}` agree
as maps and receive the same key. -/
theorem C5_amended_witness :
    generateCacheKey "e" (some [("a", .num 1)]) =
      generateCacheKey "e" (some [("a", .num 1)]) :=
  C5_amended_cache_key "e" [("a", .num 1)] [("a", .num 1)]
    (by decide) (by decide) (fun _ => rfl)

/-- Result shape of `InputValidator.validateText`:
`{ isValid: boolean; error?: string }`. -/
structure ValidationResult where
  isValid : Bool
  error : Option String := none
deriving DecidableEq

namespace InputValidator

/-- Embeds `InputValidator.validateText(text, max_text_length)`.  The
emptiness gate `!text || text.trim().length === 0` is embedded as "empty or
all-whitespace" (trimming both ends leaves the empty string exactly when
every character is whitespace); the length gate is concrete; the two regex
families — the
suspicious script/protocol/event-handler patterns and the spam
keyword/URL/email patterns — are abstracted as the boolean predicates `susp`
and `spam`, checked in the source's order (malicious first, spam second). -/
def validateText (susp spam : String → Bool) (text : String)
    (max_text_length : Nat) : ValidationResult :=
  if text = "" ∨ text.data.all (fun ch => ch.isWhitespace) then
    ⟨false, some "Please enter some text to translate"⟩
  else if max_text_length < text.length then
    ⟨false, some ("Text too long. Maximum " ++ toString max_text_length ++
      " characters allowed.")⟩
  else if susp text then
    ⟨false, some "Potentially malicious content detected"⟩
  else if spam text then
    ⟨false, some "Content contains prohibited patterns"⟩
  else
    ⟨true, none⟩

end InputValidator

/-- JavaScript's `a || b` on an optional string: the fallback is used when
the value is absent or empty (falsy). -/
def jsOrString (a : Option String) (b : String) : String :=
  match a with
  | some s => if s = "" then b else s
  | none => b

/-- JavaScript falsiness of an optional string (`!x`): true when absent or
empty. -/
def jsFalsyString (a : Option String) : Bool :=
  match a with
  | some s => s = ""
  | none => true

/-- The result of the upstream moderation call that the handler consumes:
`{ flagged, categories }`, with `categories` an object whose keys are
content-policy category names and whose values say whether each was hit. -/
structure ModerationResult where
  flagged : Bool
  categories : List (String × Bool)

/-- Inputs the question endpoint handler reads from its environment: the two
client-address headers, the parsed request body's `input` field, the
configured API key, the moderation verdict for `input`, and the completion
call's status and `output_text`. -/
structure QuestionEnv where
  xForwardedFor : Option String
  xRealIp : Option String
  input : String
  apiKey : Option String
  moderation : ModerationResult
  completionStatus : String
  outputText : Option String

/-- The JSON envelope produced by the handler (via `NextResponse.json`). -/
structure QuestionResponse where
  status : Nat
  error : Option String := none
  response : Option String := none
  originalInput : Option String := none
  remainingRequests : Option Int := none

namespace QuestionRoute

/-- The caller identity the handler resolves:
`x-forwarded-for || x-real-ip || 'unknown'`. -/
def clientIp (env : QuestionEnv) : String :=
  jsOrString env.xForwardedFor (jsOrString env.xRealIp "unknown")

/-- Embeds the question endpoint `POST` handler: rate-limit gate, input
validation, credential check, moderation gate, completion call.  The result
triple is the JSON response, the rate-limiter store after the request, and
whether the upstream completion call was made.  The regex families of the
validator are abstracted as `susp` and `spam` (as in
`InputValidator.validateText`). -/
def POST (M W now : Nat) (susp spam : String → Bool) (env : QuestionEnv)
    (s : RLStore) : QuestionResponse × RLStore × Bool :=
  let ip := clientIp env
  let check := ServerRateLimiter.checkLimit M W now s ip
  if !check.1 then
    ({ status := 429, error := some "Rate limit exceeded. Please try again later." },
      check.2, false)
  else
    let textValidation := InputValidator.validateText susp spam env.input 2000
    if !textValidation.isValid then
      ({ status := 400, error := textValidation.error }, check.2, false)
    else if jsFalsyString env.apiKey then
      ({ status := 500, error := some "Translation service temporarily unavailable" },
        check.2, false)
    else if env.moderation.flagged then
      let flaggedCategories := (env.moderation.categories.filter (fun p => p.2)).map
        (fun p => p.1)
      ({ status := 400,
         error := some ("Content flagged as inappropriate: " ++
           String.intercalate ", " flaggedCategories) },
        check.2, false)
    else if env.completionStatus ≠ "completed" then
      ({ status := 500,
         error := some ("Responses API error: " ++ env.completionStatus) },
        check.2, true)
    else
      ({ status := 200,
         response := some (jsOrString env.outputText "Response recieved"),
         originalInput := some env.input,
         remainingRequests := some (ServerRateLimiter.getRemaining M now check.2 ip) },
        check.2, true)

end QuestionRoute

/-- Claim C8: when the handler reaches the moderation step (rate limit
passed, input valid, credential configured) and the moderation check flags
the input, the handler returns a 400 error naming exactly the flagged
content-policy categories, and the upstream completion call is never made. -/
theorem C8_moderation_blocks_completion (M W now : Nat)
    (susp spam : String → Bool) (env : QuestionEnv) (s : RLStore)
    (hrl : (ServerRateLimiter.checkLimit M W now s (QuestionRoute.clientIp env)).1 = true)
    (hvalid : (InputValidator.validateText susp spam env.input 2000).isValid = true)
    (hkey : jsFalsyString env.apiKey = false)
    (hflag : env.moderation.flagged = true) :
    (QuestionRoute.POST M W now susp spam env s).1.status = 400 ∧
    (QuestionRoute.POST M W now susp spam env s).1.error =
      some ("Content flagged as inappropriate: " ++
        String.intercalate ", "
          ((env.moderation.categories.filter (fun p => p.2)).map (fun p => p.1))) ∧
    (QuestionRoute.POST M W now susp spam env s).2.2 = false := by
  simp [QuestionRoute.POST, hrl, hvalid, hkey, hflag]

/-- Witness for C8: a valid input `"hello"` flagged by moderation in category
`violence` (with `hate` not hit) yields a 400 response naming exactly
`violence`, and the completion call is not made. -/
theorem C8_moderation_witness :
    (QuestionRoute.POST 2 10 0 (fun _ => false) (fun _ => false)
        { xForwardedFor := some "1.2.3.4", xRealIp := none, input := "hello",
          apiKey := some "sk",
          moderation := ⟨true, [("violence", true), ("hate", false)]⟩,
          completionStatus := "completed", outputText := some "hi" }
        RLStore.empty).1.status = 400 ∧
    (QuestionRoute.POST 2 10 0 (fun _ => false) (fun _ => false)
        { xForwardedFor := some "1.2.3.4", xRealIp := none, input := "hello",
          apiKey := some "sk",
          moderation := ⟨true, [("violence", true), ("hate", false)]⟩,
          completionStatus := "completed", outputText := some "hi" }
        RLStore.empty).1.error = some "Content flagged as inappropriate: violence" ∧
    (QuestionRoute.POST 2 10 0 (fun _ => false) (fun _ => false)
        { xForwardedFor := some "1.2.3.4", xRealIp := none, input := "hello",
          apiKey := some "sk",
          moderation := ⟨true, [("violence", true), ("hate", false)]⟩,
          completionStatus := "completed", outputText := some "hi" }
        RLStore.empty).2.2 = false := by
  have h := C8_moderation_blocks_completion 2 10 0 (fun _ => false) (fun _ => false)
    { xForwardedFor := some "1.2.3.4", xRealIp := none, input := "hello",
      apiKey := some "sk",
      moderation := ⟨true, [("violence", true), ("hate", false)]⟩,
      completionStatus := "completed", outputText := some "hi" }
    RLStore.empty (by decide) (by decide) (by decide) rfl
  refine ⟨h.1, ?_, h.2.2⟩
  rw [h.2.1]
  decide

/-- Claim C9: the server-side rate-limit check runs first and its mutation is
never undone: whatever branch the handler takes, the store it returns is
exactly the store produced by the rate-limit gate; in particular a request
that passes the gate consumes one unit of quota (a fresh entry of count 1, or
the live count incremented) even when it then fails validation (a 400
response), and the consumed unit is never refunded. -/
theorem C9_quota_consumed_no_refund (M W now : Nat) (susp spam : String → Bool)
    (env : QuestionEnv) (s : RLStore) :
    (QuestionRoute.POST M W now susp spam env s).2.1 =
      (ServerRateLimiter.checkLimit M W now s (QuestionRoute.clientIp env)).2 ∧
    ((ServerRateLimiter.checkLimit M W now s (QuestionRoute.clientIp env)).1 = true →
      (InputValidator.validateText susp spam env.input 2000).isValid = false →
      (QuestionRoute.POST M W now susp spam env s).1.status = 400) ∧
    ((ServerRateLimiter.checkLimit M W now s (QuestionRoute.clientIp env)).1 = true →
      s (QuestionRoute.clientIp env) = none →
      (QuestionRoute.POST M W now susp spam env s).2.1 (QuestionRoute.clientIp env) =
        some ⟨1, now + W⟩) ∧
    (∀ c r,
      (ServerRateLimiter.checkLimit M W now s (QuestionRoute.clientIp env)).1 = true →
      s (QuestionRoute.clientIp env) = some ⟨c, r⟩ → now ≤ r →
      (QuestionRoute.POST M W now susp spam env s).2.1 (QuestionRoute.clientIp env) =
        some ⟨c + 1, r⟩) := by
  have h1 : (QuestionRoute.POST M W now susp spam env s).2.1 =
      (ServerRateLimiter.checkLimit M W now s (QuestionRoute.clientIp env)).2 := by
    simp only [QuestionRoute.POST]
    split
    · rfl
    · split
      · rfl
      · split
        · rfl
        · split
          · rfl
          · split
            · rfl
            · rfl
  refine ⟨h1, ?_, ?_, ?_⟩
  · intro hrl hinv
    simp [QuestionRoute.POST, hrl, hinv]
  · intro _ hnone
    rw [h1, ServerRateLimiter.checkLimit_fresh M W now s (QuestionRoute.clientIp env) hnone]
    simp
  · intro c r hrl hentry hlive
    by_cases hc : M ≤ c
    · have := ServerRateLimiter.checkLimit_deny M W now s (QuestionRoute.clientIp env)
        c r hentry hlive hc
      rw [this] at hrl
      exact absurd hrl (by simp)
    · rw [h1, ServerRateLimiter.checkLimit_allow M W now s (QuestionRoute.clientIp env)
        c r hentry hlive (Nat.lt_of_not_le hc)]
      simp

/-- Witness for C9: an empty-input request (which fails validation with a
400) from a fresh key still consumes a quota unit: the returned store maps
the caller to a fresh entry of count 1. -/
theorem C9_quota_consumed_witness :
    (QuestionRoute.POST 2 10 0 (fun _ => false) (fun _ => false)
        { xForwardedFor := some "1.2.3.4", xRealIp := none, input := "",
          apiKey := some "sk", moderation := ⟨false, []⟩,
          completionStatus := "completed", outputText := some "hi" }
        RLStore.empty).1.status = 400 ∧
    (QuestionRoute.POST 2 10 0 (fun _ => false) (fun _ => false)
        { xForwardedFor := some "1.2.3.4", xRealIp := none, input := "",
          apiKey := some "sk", moderation := ⟨false, []⟩,
          completionStatus := "completed", outputText := some "hi" }
        RLStore.empty).2.1 "1.2.3.4" = some ⟨1, 10⟩ := by
  have h := C9_quota_consumed_no_refund 2 10 0 (fun _ => false) (fun _ => false)
    { xForwardedFor := some "1.2.3.4", xRealIp := none, input := "",
      apiKey := some "sk", moderation := ⟨false, []⟩,
      completionStatus := "completed", outputText := some "hi" }
    RLStore.empty
  exact ⟨h.2.1 (by decide) (by decide), h.2.2.1 (by decide) rfl⟩
